import Mathlib

/-!
Verification development for the SambaParse ingestion driver
(`utils/parsing/sambaparse.py`).

The development shallowly embeds the two components of the module:

* the command builder of `SambaParse.run_ingest` (translation of a
  configuration object plus a source-type token into the argument list of
  the external `unstructured-ingest` process, preceded by a destructive
  reset of the output directory), and
* the output normalizer `additional_processing` / `get_langchain_docs`
  (per-element JSON post-processing with metadata merging, table-text
  substitution, metadata-record flattening and cross-file document
  accumulation).

Python dictionaries are embedded as association lists with
first-occurrence lookup and in-place update, JSON values as the inductive
`JVal`, raised `ValueError`s / `KeyError`s as `Except` errors, and the two
`subprocess.run` call sites of `run_ingest` as an event trace.
-/

set_option autoImplicit false

/-- A JSON value, as produced by `json.load` in `additional_processing`. -/
inductive JVal where
  | str : String → JVal
  | num : Int → JVal
  | bool : Bool → JVal
  | null : JVal
  | arr : List JVal → JVal
  | obj : List (String × JVal) → JVal
deriving Repr

/-- A Python `dict` with string keys (a JSON object), embedded as an
association list in insertion order. -/
abbrev Obj := List (String × JVal)

/-- Python `d[k]` for a dict: value of the first entry with key `k`. -/
def lookupD : Obj → String → Option JVal
  | [], _ => none
  | (k', v') :: rest, k => if k' = k then some v' else lookupD rest k

/-- Python `d[k] = v` for a dict: replace the value of an existing key in
place, otherwise append the new entry at the end (insertion order). -/
def setD : Obj → String → JVal → Obj
  | [], k, v => [(k, v)]
  | (k', v') :: rest, k, v =>
    if k' = k then (k, v) :: rest else (k', v') :: setD rest k v

/-- Python `d.update(extra)` for dicts: fold `setD` over the extra entries
(existing keys overwritten in place, new keys appended). -/
def updateD (d : Obj) (extra : Obj) : Obj :=
  extra.foldl (fun acc kv => setD acc kv.1 kv.2) d

/-- Truthiness of the optional `additional_metadata` argument: `None` and
the empty dict are falsy in `if extend_metadata and additional_metadata`. -/
def truthyDict : Option Obj → Bool
  | none => false
  | some m => !m.isEmpty

/-- The `processor` section of the YAML configuration. -/
structure ProcessorConfig where
  output_dir : String
  num_processes : Nat
  verbose : Bool

/-- The `partitioning` section of the YAML configuration. -/
structure PartitioningConfig where
  strategy : String
  ocr_languages : List String
  encoding : String
  fields_include : List String
  metadata_exclude : List String
  metadata_include : List String
  pdf_infer_table_structure : Bool
  skip_infer_table_types : List String
  flatten_metadata : Bool
  partition_by_api : Bool
  partition_endpoint : String

/-- The `sources.local` section. -/
structure LocalSourceConfig where
  recursive : Bool

/-- The `sources.confluence` section. -/
structure ConfluenceConfig where
  url : String
  user_email : String
  api_token : String

/-- The `sources.github` section. -/
structure GithubConfig where
  url : String
  branch : String

/-- The `sources.google_drive` section. -/
structure GoogleDriveConfig where
  drive_id : String
  service_account_key : String
  recursive : Bool

/-- The `sources` section of the YAML configuration. -/
structure SourcesConfig where
  «local» : LocalSourceConfig
  confluence : ConfluenceConfig
  github : GithubConfig
  google_drive : GoogleDriveConfig

/-- The `chunking` section of the YAML configuration. -/
structure ChunkingConfig where
  enabled : Bool
  strategy : String
  chunk_max_characters : Nat
  chunk_overlap : Nat

/-- The `embedding` section of the YAML configuration. -/
structure EmbeddingConfig where
  enabled : Bool
  provider : String
  model_name : String

/-- The `destination_connectors.chroma` section. -/
structure ChromaConfig where
  host : String
  port : Nat
  collection_name : String
  tenant : String
  database : String

/-- The `destination_connectors.qdrant` section. -/
structure QdrantConfig where
  location : String
  collection_name : String

/-- The `destination_connectors` section of the YAML configuration. -/
structure DestinationConnectorsConfig where
  enabled : Bool
  type : String
  chroma : ChromaConfig
  qdrant : QdrantConfig
  batch_size : Nat

/-- The `additional_processing` section of the YAML configuration. -/
structure AdditionalProcessingConfig where
  enabled : Bool
  extend_metadata : Bool
  replace_table_text : Bool
  table_text_key : String
  return_langchain_docs : Bool

/-- The whole configuration object loaded by `SambaParse.__init__`. -/
structure Config where
  processor : ProcessorConfig
  partitioning : PartitioningConfig
  sources : SourcesConfig
  chunking : ChunkingConfig
  embedding : EmbeddingConfig
  destination_connectors : DestinationConnectorsConfig
  additional_processing : AdditionalProcessingConfig

/-- Python `','.join(xs)`. -/
def joinComma (xs : List String) : String :=
  String.intercalate "," xs

/-- Lines 24-29 of `sambaparse.py`: the initial `command` list. -/
def baseArgs (cfg : Config) (source_type : String) : List String :=
  ["unstructured-ingest", source_type,
   "--output-dir", cfg.processor.output_dir,
   "--num-processes", toString cfg.processor.num_processes]

/-- Lines 32-39: the unconditional partition arguments. -/
def partitionArgs (cfg : Config) : List String :=
  ["--strategy", cfg.partitioning.strategy,
   "--ocr-languages", joinComma cfg.partitioning.ocr_languages,
   "--encoding", cfg.partitioning.encoding,
   "--fields-include", joinComma cfg.partitioning.fields_include,
   "--metadata-exclude", joinComma cfg.partitioning.metadata_exclude,
   "--metadata-include", joinComma cfg.partitioning.metadata_include]

/-- Lines 41-42: the table-structure flag is emitted when the config value
`partitioning.pdf_infer_table_structure` is FALSE (inverted sense). -/
def pdfTableArg (cfg : Config) : List String :=
  if cfg.partitioning.pdf_infer_table_structure then []
  else ["--pdf-infer-table-structure"]

/-- Lines 44-45: skip-infer-table-types, emitted only for a truthy
(non-empty) list. -/
def skipTableArg (cfg : Config) : List String :=
  if cfg.partitioning.skip_infer_table_types.isEmpty then []
  else ["--skip-infer-table-types", joinComma cfg.partitioning.skip_infer_table_types]

/-- Lines 47-48: metadata-flattening toggle. -/
def flattenArg (cfg : Config) : List String :=
  if cfg.partitioning.flatten_metadata then ["--flatten-metadata"] else []

/-- Lines 50-76: the mutually exclusive source-type branch.  `local`
raises when `input_path is None`; an unknown token raises
`Unsupported source type`. -/
def sourceArgs (cfg : Config) (source_type : String) (input_path : Option String) :
    Except String (List String) :=
  if source_type = "local" then
    match input_path with
    | none => .error "Input path is required for local source type."
    | some p =>
      .ok (["--input-path", "\"" ++ p ++ "\""] ++
        (if cfg.sources.«local».recursive then ["--recursive"] else []))
  else if source_type = "confluence" then
    .ok ["--url", cfg.sources.confluence.url,
         "--user-email", cfg.sources.confluence.user_email,
         "--api-token", cfg.sources.confluence.api_token]
  else if source_type = "github" then
    .ok ["--url", cfg.sources.github.url,
         "--git-branch", cfg.sources.github.branch]
  else if source_type = "google-drive" then
    .ok (["--drive-id", cfg.sources.google_drive.drive_id,
          "--service-account-key", cfg.sources.google_drive.service_account_key] ++
      (if cfg.sources.google_drive.recursive then ["--recursive"] else []))
  else
    .error ("Unsupported source type: " ++ source_type)

/-- Lines 78-79: verbosity toggle. -/
def verboseArg (cfg : Config) : List String :=
  if cfg.processor.verbose then ["--verbose"] else []

/-- Lines 81-88: remote partitioning.  `os.getenv` is modelled by the
`apiKey` argument; `if api_key:` is falsy for both an unset variable and
an empty string. -/
def apiArgs (cfg : Config) (apiKey : Option String) : Except String (List String) :=
  if cfg.partitioning.partition_by_api then
    match apiKey with
    | some key =>
      if key = "" then .error "UNSTRUCTURED_API_KEY environment variable is not set."
      else .ok (["--partition-by-api", "--api-key", key] ++
        ["--partition-endpoint", cfg.partitioning.partition_endpoint])
    | none => .error "UNSTRUCTURED_API_KEY environment variable is not set."
  else .ok []

/-- Lines 91-96: chunking group, gated on `chunking.enabled`. -/
def chunkingArgs (cfg : Config) : List String :=
  if cfg.chunking.enabled then
    ["--chunking-strategy", cfg.chunking.strategy,
     "--chunk-max-characters", toString cfg.chunking.chunk_max_characters,
     "--chunk-overlap", toString cfg.chunking.chunk_overlap]
  else []

/-- Lines 98-102: embedding group, gated on `embedding.enabled`. -/
def embeddingArgs (cfg : Config) : List String :=
  if cfg.embedding.enabled then
    ["--embedding-provider", cfg.embedding.provider,
     "--embedding-model-name", cfg.embedding.model_name]
  else []

/-- Lines 104-124: destination-connector branch; an unrecognized backend
type raises `Unsupported destination connector type`. -/
def destinationArgs (cfg : Config) : Except String (List String) :=
  if cfg.destination_connectors.enabled then
    if cfg.destination_connectors.type = "chroma" then
      .ok ["chroma",
           "--host", cfg.destination_connectors.chroma.host,
           "--port", toString cfg.destination_connectors.chroma.port,
           "--collection-name", cfg.destination_connectors.chroma.collection_name,
           "--tenant", cfg.destination_connectors.chroma.tenant,
           "--database", cfg.destination_connectors.chroma.database,
           "--batch-size", toString cfg.destination_connectors.batch_size]
    else if cfg.destination_connectors.type = "qdrant" then
      .ok ["qdrant",
           "--location", cfg.destination_connectors.qdrant.location,
           "--collection-name", cfg.destination_connectors.qdrant.collection_name,
           "--batch-size", toString cfg.destination_connectors.batch_size]
    else
      .error ("Unsupported destination connector type: " ++ cfg.destination_connectors.type)
  else .ok []

/-- Lines 24-126 of `run_ingest`: the full command list, or the first
`ValueError` raised while assembling it.  The three fallible spots are
nested in the order the Python code reaches them: source branch
(lines 50-76), then remote partitioning (81-88), then destination
connectors (104-124). -/
def buildCommand (cfg : Config) (apiKey : Option String) (source_type : String)
    (input_path : Option String) : Except String (List String) :=
  match sourceArgs cfg source_type input_path with
  | .error e => .error e
  | .ok src =>
    match apiArgs cfg apiKey with
    | .error e => .error e
    | .ok api =>
      match destinationArgs cfg with
      | .error e => .error e
      | .ok dest =>
        .ok (baseArgs cfg source_type ++ partitionArgs cfg ++ pdfTableArg cfg ++
          skipTableArg cfg ++ flattenArg cfg ++ src ++ verboseArg cfg ++ api ++
          chunkingArgs cfg ++ embeddingArgs cfg ++ dest)

/-- The two `subprocess.run` call sites of `run_ingest`: the destructive
`rm -rf` of the output directory (line 22) and the assembled ingest
command (line 129). -/
inductive Event where
  | deleteOutputDir : String → Event
  | runCommand : String → Event
deriving Repr, DecidableEq

/-- Model of `run_ingest` up to and including the external-process invocation
(lines 16-129): the output directory is always deleted first (lines
18-22), then the command is assembled; on success the joined command
string is executed, on a `ValueError` nothing further happens.  The
post-processing stage (lines 131-141) is modelled separately by
`additional_processing`, since it consumes files written by the external
tool. -/
def run_ingest (cfg : Config) (apiKey : Option String) (source_type : String)
    (input_path : Option String) : List Event × Except String (List String) :=
  match buildCommand cfg apiKey source_type input_path with
  | .error e => ([Event.deleteOutputDir cfg.processor.output_dir], .error e)
  | .ok cmd =>
    ([Event.deleteOutputDir cfg.processor.output_dir,
      Event.runCommand (String.intercalate " " cmd)], .ok cmd)

/-- Whether an `Except` result is an error (a raised `ValueError`). -/
def isErr {ε α : Type} : Except ε α → Bool
  | .error _ => true
  | .ok _ => false

/-- Every configuration-supplied string that `buildCommand` can splice
into the command as a VALUE token (as opposed to the literal flag
tokens), over all branches. -/
def suppliedStrings (cfg : Config) (apiKey : Option String)
    (input_path : Option String) : List String :=
  [cfg.processor.output_dir,
   toString cfg.processor.num_processes,
   cfg.partitioning.strategy,
   joinComma cfg.partitioning.ocr_languages,
   cfg.partitioning.encoding,
   joinComma cfg.partitioning.fields_include,
   joinComma cfg.partitioning.metadata_exclude,
   joinComma cfg.partitioning.metadata_include,
   joinComma cfg.partitioning.skip_infer_table_types,
   "\"" ++ input_path.getD "" ++ "\"",
   cfg.sources.confluence.url,
   cfg.sources.confluence.user_email,
   cfg.sources.confluence.api_token,
   cfg.sources.github.url,
   cfg.sources.github.branch,
   cfg.sources.google_drive.drive_id,
   cfg.sources.google_drive.service_account_key,
   apiKey.getD "",
   cfg.partitioning.partition_endpoint,
   cfg.chunking.strategy,
   toString cfg.chunking.chunk_max_characters,
   toString cfg.chunking.chunk_overlap,
   cfg.embedding.provider,
   cfg.embedding.model_name,
   cfg.destination_connectors.chroma.host,
   toString cfg.destination_connectors.chroma.port,
   cfg.destination_connectors.chroma.collection_name,
   cfg.destination_connectors.chroma.tenant,
   cfg.destination_connectors.chroma.database,
   toString cfg.destination_connectors.batch_size,
   cfg.destination_connectors.qdrant.location,
   cfg.destination_connectors.qdrant.collection_name]

/-- A Python runtime error raised inside `additional_processing`:
`KeyError` for a missing dict key, `TypeError` for a value used as a dict
that is not one. -/
inductive PErr where
  | keyError : String → PErr
  | typeError : String → PErr
deriving Repr, DecidableEq

/-- Python `element[k]`, raising `KeyError` when absent. -/
def getKey (element : Obj) (k : String) : Except PErr JVal :=
  match lookupD element k with
  | some v => .ok v
  | none => .error (.keyError k)

/-- Python `element[k]` used as a dict: raises `KeyError` when absent and a type
error when the value is not a JSON object. -/
def getObjKey (element : Obj) (k : String) : Except PErr Obj :=
  match lookupD element k with
  | some (.obj m) => .ok m
  | some _ => .error (.typeError k)
  | none => .error (.keyError k)

/-- Python `element['type'] == 'Table'`. -/
def isTableType : JVal → Bool
  | .str s => s = "Table"
  | _ => false

/-- Lines 166-168: overlay every top-level element field except `text`,
`metadata` and `embeddings` onto the copied metadata dict. -/
def overlayFields (element : Obj) (m : Obj) : Obj :=
  element.foldl
    (fun acc kv =>
      if kv.1 = "text" ∨ kv.1 = "metadata" ∨ kv.1 = "embeddings" then acc
      else setD acc kv.1 kv.2)
    m

/-- Lines 169-172: the `page` key is always (re)written — from
`page_number` when present in the overlaid metadata, else `1`. -/
def setPage (m : Obj) : Obj :=
  match lookupD m "page_number" with
  | some v => setD m "page" v
  | none => setD m "page" (.num 1)

/-- Lines 159-160: `if extend_metadata and additional_metadata:
element['metadata'].update(additional_metadata)` — merge the caller's
extra metadata into the element's metadata dict in place. -/
def mergeStep (extend_metadata : Bool) (additional_metadata : Option Obj)
    (element : Obj) : Except PErr Obj :=
  if extend_metadata && truthyDict additional_metadata then
    match getObjKey element "metadata" with
    | .error e => .error e
    | .ok m =>
      .ok (setD element "metadata"
        (.obj (updateD m (additional_metadata.getD []))))
  else .ok element

/-- Lines 162-163: `if replace_table_text and element['type'] == 'Table':
element['text'] = element['metadata'][table_text_key]` — substitute the
table text from the configured metadata key; a missing key raises
`KeyError(table_text_key)`. -/
def tableStep (replace_table_text : Bool) (table_text_key : String)
    (element : Obj) : Except PErr Obj :=
  if replace_table_text then
    match getKey element "type" with
    | .error e => .error e
    | .ok t =>
      if isTableType t then
        match getObjKey element "metadata" with
        | .error e => .error e
        | .ok m =>
          match lookupD m table_text_key with
          | some v => .ok (setD element "text" v)
          | none => .error (.keyError table_text_key)
      else .ok element
  else .ok element

/-- The body of the per-element loop of `additional_processing`
(lines 158-175): optionally merge `additional_metadata` into the
element's metadata, optionally substitute table text, build the flattened
metadata record, and return (mutated element, emitted text, record). -/
def processElement (extend_metadata : Bool) (additional_metadata : Option Obj)
    (replace_table_text : Bool) (table_text_key : String) (element : Obj) :
    Except PErr (Obj × JVal × Obj) :=
  match mergeStep extend_metadata additional_metadata element with
  | .error e => .error e
  | .ok element1 =>
    match tableStep replace_table_text table_text_key element1 with
    | .error e => .error e
    | .ok element2 =>
      match getObjKey element2 "metadata" with
      | .error e => .error e
      | .ok mv =>
        match getKey element2 "text" with
        | .error e => .error e
        | .ok t => .ok (element2, t, setPage (overlayFields element2 mv))

/-- The per-file element loop of `additional_processing` (lines 158-175):
mutated elements, texts and metadata records of one file, in order. -/
def processElems (extend_metadata : Bool) (additional_metadata : Option Obj)
    (replace_table_text : Bool) (table_text_key : String) :
    List Obj → Except PErr (List Obj × List JVal × List Obj)
  | [] => .ok ([], [], [])
  | e :: rest =>
    match processElement extend_metadata additional_metadata replace_table_text
        table_text_key e with
    | .error err => .error err
    | .ok (e', t, md) =>
      match processElems extend_metadata additional_metadata replace_table_text
          table_text_key rest with
      | .error err => .error err
      | .ok (es, ts, ms) => .ok (e' :: es, t :: ts, md :: ms)

/-- Model of `get_langchain_docs` (lines 185-189): one document per
(text, metadata) pair of the zipped input lists. -/
def get_langchain_docs (texts : List JVal) (metadata_list : List Obj) :
    List (JVal × Obj) :=
  texts.zip metadata_list

/-- The result of `additional_processing`: the rewritten JSON files
(line 180-181, one per input file) and the returned triple
(texts, metadata_list, langchain_docs). -/
structure ProcResult where
  written : List (List Obj)
  texts : List JVal
  metadata_list : List Obj
  langchain_docs : List (JVal × Obj)
deriving Repr

/-- The file loop of `additional_processing` (lines 154-181), carrying
the running `texts`, `metadata_list` and `langchain_docs` accumulators:
after each file, when requested, the document list is extended with
documents built from the ENTIRE accumulated texts/metadata lists so far
(line 177-178), and the (possibly mutated) element list is written back. -/
def apLoop (extend_metadata : Bool) (additional_metadata : Option Obj)
    (replace_table_text : Bool) (table_text_key : String)
    (return_langchain_docs : Bool) (texts : List JVal) (metadata_list : List Obj)
    (langchain_docs : List (JVal × Obj)) :
    List (List Obj) → Except PErr ProcResult
  | [] => .ok ⟨[], texts, metadata_list, langchain_docs⟩
  | f :: fs =>
    match processElems extend_metadata additional_metadata replace_table_text
        table_text_key f with
    | .error err => .error err
    | .ok (f', ts, ms) =>
      let texts' := texts ++ ts
      let metadata_list' := metadata_list ++ ms
      let langchain_docs' :=
        if return_langchain_docs then
          langchain_docs ++ get_langchain_docs texts' metadata_list'
        else langchain_docs
      match apLoop extend_metadata additional_metadata replace_table_text
          table_text_key return_langchain_docs texts' metadata_list'
          langchain_docs' fs with
      | .error err => .error err
      | .ok r => .ok ⟨f' :: r.written, r.texts, r.metadata_list, r.langchain_docs⟩

/-- Model of `additional_processing` (lines 143-183), with the directory listing
abstracted to the list of parsed `.json` files (each an element list):
starts with empty accumulators and runs the file loop. -/
def additional_processing (extend_metadata : Bool) (additional_metadata : Option Obj)
    (replace_table_text : Bool) (table_text_key : String)
    (return_langchain_docs : Bool) (files : List (List Obj)) :
    Except PErr ProcResult :=
  apLoop extend_metadata additional_metadata replace_table_text table_text_key
    return_langchain_docs [] [] [] files

theorem lookupD_setD_self (d : Obj) (k : String) (v : JVal) :
    lookupD (setD d k v) k = some v := by
  induction d with
  | nil => simp [setD, lookupD]
  | cons kv rest ih =>
    obtain ⟨k', v'⟩ := kv
    by_cases h : k' = k
    · simp [setD, h, lookupD]
    · simp [setD, h, lookupD, ih]

theorem lookupD_setD_ne (d : Obj) (k' : String) (v : JVal) (k : String)
    (h : k' ≠ k) : lookupD (setD d k' v) k = lookupD d k := by
  induction d with
  | nil => simp [setD, lookupD, h]
  | cons kv rest ih =>
    obtain ⟨a, b⟩ := kv
    by_cases ha : a = k'
    · subst ha
      simp [setD, lookupD, h]
    · by_cases hk : a = k
      · simp [setD, ha, lookupD, hk, Ne.symm h]
      · simp [setD, ha, lookupD, hk, ih]

theorem lookupD_eq_none_iff (d : Obj) (k : String) :
    lookupD d k = none ↔ ∀ kv ∈ d, kv.1 ≠ k := by
  induction d with
  | nil => simp [lookupD]
  | cons kv rest ih =>
    obtain ⟨a, b⟩ := kv
    by_cases h : a = k
    · simp [lookupD, h]
    · simp [lookupD, h, ih]

theorem lookupD_overlayFields (element : Obj) (m : Obj) (k : String)
    (h : ∀ kv ∈ element, kv.1 ≠ k) :
    lookupD (overlayFields element m) k = lookupD m k := by
  induction element generalizing m with
  | nil => rfl
  | cons kv rest ih =>
    have hk : kv.1 ≠ k := h kv (List.mem_cons_self kv rest)
    have hrest : ∀ kv' ∈ rest, kv'.1 ≠ k := fun kv' hm => h kv' (List.mem_cons_of_mem kv hm)
    simp only [overlayFields, List.foldl_cons] at *
    by_cases hex : kv.1 = "text" ∨ kv.1 = "metadata" ∨ kv.1 = "embeddings"
    · rw [if_pos hex]
      exact ih m hrest
    · rw [if_neg hex]
      rw [ih (setD m kv.1 kv.2) hrest]
      exact lookupD_setD_ne m kv.1 kv.2 k hk

theorem lookupD_setPage_page (m : Obj) :
    lookupD (setPage m) "page" =
      some ((lookupD m "page_number").getD (.num 1)) := by
  unfold setPage
  cases h : lookupD m "page_number" with
  | none => simp [lookupD_setD_self]
  | some v => simp [lookupD_setD_self]

theorem lookupD_setPage_page_number (m : Obj) :
    lookupD (setPage m) "page_number" = lookupD m "page_number" := by
  unfold setPage
  cases h : lookupD m "page_number" with
  | none => simpa [lookupD_setD_ne m "page" _ "page_number" (by decide)] using h
  | some v => simpa [lookupD_setD_ne m "page" _ "page_number" (by decide)] using h

theorem lookupD_setPage_other (m : Obj) (k : String)
    (h : k ≠ "page") : lookupD (setPage m) k = lookupD m k := by
  unfold setPage
  cases lookupD m "page_number" with
  | none => exact lookupD_setD_ne m "page" _ k (fun hp => h hp.symm)
  | some v => exact lookupD_setD_ne m "page" _ k (fun hp => h hp.symm)

theorem processElems_mem_metadata (em : Bool) (am : Option Obj) (rt : Bool)
    (key : String) :
    ∀ (es es' : List Obj) (ts : List JVal) (ms : List Obj),
      processElems em am rt key es = .ok (es', ts, ms) →
      ∀ md ∈ ms, ∃ e ∈ es, ∃ e' t,
        processElement em am rt key e = .ok (e', t, md) := by
  intro es
  induction es with
  | nil =>
    intro es' ts ms h md hmd
    simp [processElems] at h
    obtain ⟨-, -, h3⟩ := h
    subst h3
    simp at hmd
  | cons e rest ih =>
    intro es' ts ms h md hmd
    unfold processElems at h
    cases h1 : processElement em am rt key e with
    | error err => rw [h1] at h; exact absurd h (by simp)
    | ok x =>
      obtain ⟨e1, t1, md1⟩ := x
      rw [h1] at h
      cases h2 : processElems em am rt key rest with
      | error err => rw [h2] at h; exact absurd h (by simp)
      | ok y =>
        obtain ⟨es0, ts0, ms0⟩ := y
        rw [h2] at h
        simp at h
        obtain ⟨-, -, h3⟩ := h
        subst h3
        rcases List.mem_cons.mp hmd with hmd | hmd
        · exact ⟨e, List.mem_cons_self e rest, e1, t1, by rw [h1, hmd]⟩
        · obtain ⟨e2, he2, e2', t2, hp⟩ := ih es0 ts0 ms0 h2 md hmd
          exact ⟨e2, List.mem_cons_of_mem e he2, e2', t2, hp⟩

theorem apLoop_mem_metadata (em : Bool) (am : Option Obj) (rt : Bool)
    (key : String) (rd : Bool) :
    ∀ (files : List (List Obj)) (ts : List JVal) (ms : List Obj)
      (ds : List (JVal × Obj)) (r : ProcResult),
      apLoop em am rt key rd ts ms ds files = .ok r →
      ∀ md ∈ r.metadata_list, md ∈ ms ∨ ∃ f ∈ files, ∃ e ∈ f, ∃ e' t,
        processElement em am rt key e = .ok (e', t, md) := by
  intro files
  induction files with
  | nil =>
    intro ts ms ds r h md hmd
    simp [apLoop] at h
    rw [← h] at hmd
    exact Or.inl hmd
  | cons f fs ih =>
    intro ts ms ds r h md hmd
    unfold apLoop at h
    cases h1 : processElems em am rt key f with
    | error err => rw [h1] at h; exact absurd h (by simp)
    | ok x =>
      obtain ⟨f', tsf, msf⟩ := x
      rw [h1] at h
      simp only at h
      cases h2 : apLoop em am rt key rd (ts ++ tsf) (ms ++ msf)
          (if rd then ds ++ get_langchain_docs (ts ++ tsf) (ms ++ msf) else ds) fs with
      | error err => rw [h2] at h; exact absurd h (by simp)
      | ok r' =>
        rw [h2] at h
        simp at h
        have hml : r.metadata_list = r'.metadata_list := by rw [← h]
        rw [hml] at hmd
        rcases ih (ts ++ tsf) (ms ++ msf) _ r' h2 md hmd with hin | ⟨g, hg, e, he, e', t, hp⟩
        · rcases List.mem_append.mp hin with hin | hin
          · exact Or.inl hin
          · obtain ⟨e, he, e', t, hp⟩ :=
              processElems_mem_metadata em am rt key f f' tsf msf h1 md hin
            exact Or.inr ⟨f, List.mem_cons_self f fs, e, he, e', t, hp⟩
        · exact Or.inr ⟨g, List.mem_cons_of_mem f hg, e, he, e', t, hp⟩

theorem processElems_lengths (em : Bool) (am : Option Obj) (rt : Bool)
    (key : String) :
    ∀ (es es' : List Obj) (ts : List JVal) (ms : List Obj),
      processElems em am rt key es = .ok (es', ts, ms) →
      ts.length = es.length ∧ ms.length = es.length ∧ es'.length = es.length := by
  intro es
  induction es with
  | nil =>
    intro es' ts ms h
    simp [processElems] at h
    obtain ⟨h1, h2, h3⟩ := h
    subst h1; subst h2; subst h3
    simp
  | cons e rest ih =>
    intro es' ts ms h
    unfold processElems at h
    cases h1 : processElement em am rt key e with
    | error err => rw [h1] at h; exact absurd h (by simp)
    | ok x =>
      obtain ⟨e1, t1, md1⟩ := x
      rw [h1] at h
      cases h2 : processElems em am rt key rest with
      | error err => rw [h2] at h; exact absurd h (by simp)
      | ok y =>
        obtain ⟨es0, ts0, ms0⟩ := y
        rw [h2] at h
        simp at h
        obtain ⟨ha, hb, hc⟩ := h
        subst ha; subst hb; subst hc
        obtain ⟨l1, l2, l3⟩ := ih es0 ts0 ms0 h2
        simp [l1, l2, l3]

/-- The running document count of the cross-file accumulation: starting
from `acc` already-emitted elements, each file of length `l` contributes
`acc + l` documents (the zip of the FULL running texts/metadata lists). -/
def docCountModel : Nat → List Nat → Nat
  | _, [] => 0
  | acc, l :: ls => (acc + l) + docCountModel (acc + l) ls

theorem apLoop_count (em : Bool) (am : Option Obj) (rt : Bool) (key : String) :
    ∀ (files : List (List Obj)) (ts : List JVal) (ms : List Obj)
      (ds : List (JVal × Obj)) (r : ProcResult),
      apLoop em am rt key true ts ms ds files = .ok r →
      ts.length = ms.length →
      r.texts.length = ts.length + (files.map List.length).sum ∧
      r.metadata_list.length = r.texts.length ∧
      r.langchain_docs.length =
        ds.length + docCountModel ts.length (files.map List.length) := by
  intro files
  induction files with
  | nil =>
    intro ts ms ds r h hlen
    simp [apLoop] at h
    subst h
    simp [docCountModel, hlen]
  | cons f fs ih =>
    intro ts ms ds r h hlen
    unfold apLoop at h
    cases h1 : processElems em am rt key f with
    | error err => rw [h1] at h; exact absurd h (by simp)
    | ok x =>
      obtain ⟨f', tsf, msf⟩ := x
      rw [h1] at h
      simp only [if_pos rfl, if_true] at h
      cases h2 : apLoop em am rt key true (ts ++ tsf) (ms ++ msf)
          (ds ++ get_langchain_docs (ts ++ tsf) (ms ++ msf)) fs with
      | error err => rw [h2] at h; exact absurd h (by simp)
      | ok r' =>
        rw [h2] at h
        simp at h
        obtain ⟨l1, l2, -⟩ := processElems_lengths em am rt key f f' tsf msf h1
        have hlen' : (ts ++ tsf).length = (ms ++ msf).length := by
          simp [hlen, l1, l2]
        obtain ⟨c1, c2, c3⟩ := ih (ts ++ tsf) (ms ++ msf) _ r' h2 hlen'
        have hteq : r.texts = r'.texts := by rw [← h]
        have hmeq : r.metadata_list = r'.metadata_list := by rw [← h]
        have hdeq : r.langchain_docs = r'.langchain_docs := by rw [← h]
        have hzip : (get_langchain_docs (ts ++ tsf) (ms ++ msf)).length =
            ts.length + tsf.length := by
          simp [get_langchain_docs, List.length_zip, hlen, l1, l2]
        constructor
        · rw [hteq, c1]; simp [l1]; omega
        · constructor
          · rw [hmeq, hteq, c2]
          · rw [hdeq, c3]
            simp only [List.length_append, hzip, List.map_cons, List.sum_cons,
              docCountModel, l1]
            omega

theorem docCountModel_ge_sum : ∀ (L : List Nat) (acc : Nat),
    L.sum ≤ docCountModel acc L := by
  intro L
  induction L with
  | nil => intro acc; simp [docCountModel]
  | cons l ls ih =>
    intro acc
    have := ih (acc + l)
    simp only [docCountModel, List.sum_cons]
    omega

theorem docCountModel_gt_sum : ∀ (L : List Nat) (acc : Nat),
    (∃ x ∈ L.dropLast, 0 < x) → L.sum < docCountModel acc L := by
  intro L
  induction L with
  | nil => intro acc h; simp at h
  | cons l ls ih =>
    intro acc h
    cases ls with
    | nil => simp at h
    | cons m ms =>
      obtain ⟨x, hx, hxpos⟩ := h
      rw [List.dropLast_cons_of_ne_nil (by simp)] at hx
      rcases List.mem_cons.mp hx with hx | hx
      · subst hx
        have h1 := docCountModel_ge_sum (m :: ms) (acc + x)
        have h2 := docCountModel_ge_sum ms (acc + x + m)
        simp only [docCountModel, List.sum_cons] at *
        omega
      · have h1 := ih (acc + l) ⟨x, hx, hxpos⟩
        simp only [docCountModel, List.sum_cons] at *
        omega

theorem processElement_id (em : Bool) (am : Option Obj) (key : String)
    (e e' : Obj) (t : JVal) (md : Obj)
    (hflag : em = false ∨ am = none)
    (h : processElement em am false key e = .ok (e', t, md)) : e' = e := by
  unfold processElement at h
  have hm : mergeStep em am e = .ok e := by
    unfold mergeStep
    rcases hflag with hf | hf
    · simp [hf]
    · simp [hf, truthyDict]
  have ht : tableStep false key e = .ok e := by unfold tableStep; simp
  simp only [hm, ht] at h
  cases h3 : getObjKey e "metadata" with
  | error err => rw [h3] at h; exact absurd h (by simp)
  | ok mv =>
    rw [h3] at h
    cases h4 : getKey e "text" with
    | error err => rw [h4] at h; exact absurd h (by simp)
    | ok t0 =>
      rw [h4] at h
      simp at h
      exact h.1.symm

theorem processElems_id (em : Bool) (am : Option Obj) (key : String)
    (hflag : em = false ∨ am = none) :
    ∀ (es es' : List Obj) (ts : List JVal) (ms : List Obj),
      processElems em am false key es = .ok (es', ts, ms) → es' = es := by
  intro es
  induction es with
  | nil =>
    intro es' ts ms h
    simp [processElems] at h
    exact h.1
  | cons e rest ih =>
    intro es' ts ms h
    unfold processElems at h
    cases h1 : processElement em am false key e with
    | error err => rw [h1] at h; exact absurd h (by simp)
    | ok x =>
      obtain ⟨e1, t1, md1⟩ := x
      rw [h1] at h
      cases h2 : processElems em am false key rest with
      | error err => rw [h2] at h; exact absurd h (by simp)
      | ok y =>
        obtain ⟨es0, ts0, ms0⟩ := y
        rw [h2] at h
        simp at h
        obtain ⟨ha, -, -⟩ := h
        rw [← ha]
        rw [processElement_id em am key e e1 t1 md1 hflag h1, ih es0 ts0 ms0 h2]

theorem apLoop_written_id (em : Bool) (am : Option Obj) (key : String)
    (rd : Bool) (hflag : em = false ∨ am = none) :
    ∀ (files : List (List Obj)) (ts : List JVal) (ms : List Obj)
      (ds : List (JVal × Obj)) (r : ProcResult),
      apLoop em am false key rd ts ms ds files = .ok r →
      r.written = files := by
  intro files
  induction files with
  | nil =>
    intro ts ms ds r h
    simp [apLoop] at h
    subst h
    rfl
  | cons f fs ih =>
    intro ts ms ds r h
    unfold apLoop at h
    cases h1 : processElems em am false key f with
    | error err => rw [h1] at h; exact absurd h (by simp)
    | ok x =>
      obtain ⟨f', tsf, msf⟩ := x
      rw [h1] at h
      simp only at h
      cases h2 : apLoop em am false key rd (ts ++ tsf) (ms ++ msf)
          (if rd then ds ++ get_langchain_docs (ts ++ tsf) (ms ++ msf) else ds) fs with
      | error err => rw [h2] at h; exact absurd h (by simp)
      | ok r' =>
        rw [h2] at h
        simp at h
        have hw : r.written = f' :: r'.written := by rw [← h]
        rw [hw, processElems_id em am key hflag f f' tsf msf h1, ih _ _ _ r' h2]


theorem mem_baseArgs (cfg : Config) (k ip : Option String) (st x : String)
    (hx : x ∈ baseArgs cfg st) :
    x ∈ ["unstructured-ingest", "--output-dir", "--num-processes"] ∨ x = st ∨
    x ∈ suppliedStrings cfg k ip := by
  simp only [baseArgs, List.mem_cons, List.not_mem_nil, or_false] at hx
  simp only [suppliedStrings, List.mem_cons, List.not_mem_nil, or_false]
  tauto

theorem mem_partitionArgs (cfg : Config) (k ip : Option String) (x : String)
    (hx : x ∈ partitionArgs cfg) :
    x ∈ ["--strategy", "--ocr-languages", "--encoding", "--fields-include",
         "--metadata-exclude", "--metadata-include"] ∨
    x ∈ suppliedStrings cfg k ip := by
  simp only [partitionArgs, List.mem_cons, List.not_mem_nil, or_false] at hx
  simp only [suppliedStrings, List.mem_cons, List.not_mem_nil, or_false]
  tauto

theorem mem_skipTableArg (cfg : Config) (k ip : Option String) (x : String)
    (hx : x ∈ skipTableArg cfg) :
    x = "--skip-infer-table-types" ∨ x ∈ suppliedStrings cfg k ip := by
  unfold skipTableArg at hx
  by_cases h : cfg.partitioning.skip_infer_table_types.isEmpty
  · rw [if_pos h] at hx; simp at hx
  · rw [if_neg h] at hx
    simp only [List.mem_cons, List.not_mem_nil, or_false] at hx
    simp only [suppliedStrings, List.mem_cons, List.not_mem_nil, or_false]
    tauto

theorem mem_flattenArg (cfg : Config) (x : String) (hx : x ∈ flattenArg cfg) :
    x = "--flatten-metadata" := by
  unfold flattenArg at hx
  by_cases h : cfg.partitioning.flatten_metadata
  · rw [if_pos h] at hx; simpa using hx
  · rw [if_neg h] at hx; simp at hx

theorem mem_verboseArg (cfg : Config) (x : String) (hx : x ∈ verboseArg cfg) :
    x = "--verbose" := by
  unfold verboseArg at hx
  by_cases h : cfg.processor.verbose
  · rw [if_pos h] at hx; simpa using hx
  · rw [if_neg h] at hx; simp at hx

theorem mem_pdfTableArg (cfg : Config) (x : String) (hx : x ∈ pdfTableArg cfg) :
    x = "--pdf-infer-table-structure" ∧
    cfg.partitioning.pdf_infer_table_structure = false := by
  unfold pdfTableArg at hx
  by_cases h : cfg.partitioning.pdf_infer_table_structure
  · rw [if_pos h] at hx; simp at hx
  · rw [if_neg h] at hx
    simp at hx
    exact ⟨hx, by simpa using h⟩

theorem sourceArgs_ok_st (cfg : Config) (st : String) (ip : Option String)
    (src : List String) (h : sourceArgs cfg st ip = .ok src) :
    st = "local" ∨ st = "confluence" ∨ st = "github" ∨ st = "google-drive" := by
  unfold sourceArgs at h
  by_cases h1 : st = "local"
  · exact Or.inl h1
  · rw [if_neg h1] at h
    by_cases h2 : st = "confluence"
    · exact Or.inr (Or.inl h2)
    · rw [if_neg h2] at h
      by_cases h3 : st = "github"
      · exact Or.inr (Or.inr (Or.inl h3))
      · rw [if_neg h3] at h
        by_cases h4 : st = "google-drive"
        · exact Or.inr (Or.inr (Or.inr h4))
        · rw [if_neg h4] at h; exact absurd h (by simp)

theorem mem_sourceArgs (cfg : Config) (k : Option String) (st : String)
    (ip : Option String) (src : List String)
    (h : sourceArgs cfg st ip = .ok src) (x : String) (hx : x ∈ src) :
    x ∈ ["--input-path", "--recursive", "--url", "--user-email", "--api-token",
         "--git-branch", "--drive-id", "--service-account-key"] ∨
    x ∈ suppliedStrings cfg k ip := by
  unfold sourceArgs at h
  by_cases h1 : st = "local"
  · rw [if_pos h1] at h
    cases ip with
    | none => exact absurd h (by simp)
    | some p =>
      simp only [Except.ok.injEq] at h
      subst h
      by_cases hr : cfg.sources.«local».recursive
      · rw [if_pos hr] at hx
        simp only [List.cons_append, List.nil_append, List.mem_cons,
          List.not_mem_nil, or_false] at hx
        simp only [suppliedStrings, List.mem_cons, List.not_mem_nil, or_false,
          Option.getD_some]
        tauto
      · rw [if_neg hr] at hx
        simp only [List.append_nil, List.mem_cons, List.not_mem_nil, or_false] at hx
        simp only [suppliedStrings, List.mem_cons, List.not_mem_nil, or_false,
          Option.getD_some]
        tauto
  · rw [if_neg h1] at h
    by_cases h2 : st = "confluence"
    · rw [if_pos h2] at h
      simp only [Except.ok.injEq] at h
      subst h
      simp only [List.mem_cons, List.not_mem_nil, or_false] at hx
      simp only [suppliedStrings, List.mem_cons, List.not_mem_nil, or_false]
      tauto
    · rw [if_neg h2] at h
      by_cases h3 : st = "github"
      · rw [if_pos h3] at h
        simp only [Except.ok.injEq] at h
        subst h
        simp only [List.mem_cons, List.not_mem_nil, or_false] at hx
        simp only [suppliedStrings, List.mem_cons, List.not_mem_nil, or_false]
        tauto
      · rw [if_neg h3] at h
        by_cases h4 : st = "google-drive"
        · rw [if_pos h4] at h
          simp only [Except.ok.injEq] at h
          subst h
          by_cases hr : cfg.sources.google_drive.recursive
          · rw [if_pos hr] at hx
            simp only [List.cons_append, List.nil_append, List.mem_cons,
              List.not_mem_nil, or_false] at hx
            simp only [suppliedStrings, List.mem_cons, List.not_mem_nil, or_false]
            tauto
          · rw [if_neg hr] at hx
            simp only [List.append_nil, List.mem_cons, List.not_mem_nil,
              or_false] at hx
            simp only [suppliedStrings, List.mem_cons, List.not_mem_nil, or_false]
            tauto
        · rw [if_neg h4] at h; exact absurd h (by simp)

theorem mem_apiArgs (cfg : Config) (k : Option String) (ip : Option String)
    (api : List String) (h : apiArgs cfg k = .ok api) (x : String) (hx : x ∈ api) :
    x ∈ ["--partition-by-api", "--api-key", "--partition-endpoint"] ∨
    x ∈ suppliedStrings cfg k ip := by
  unfold apiArgs at h
  by_cases h1 : cfg.partitioning.partition_by_api
  · rw [if_pos h1] at h
    cases k with
    | none => exact absurd h (by simp)
    | some key =>
      replace h : (if key = "" then
          (Except.error "UNSTRUCTURED_API_KEY environment variable is not set." :
            Except String (List String))
        else .ok (["--partition-by-api", "--api-key", key] ++
          ["--partition-endpoint", cfg.partitioning.partition_endpoint])) = .ok api := h
      by_cases h2 : key = ""
      · rw [if_pos h2] at h; exact absurd h (by simp)
      · rw [if_neg h2] at h
        simp only [List.cons_append, List.nil_append, Except.ok.injEq] at h
        subst h
        simp only [List.mem_cons, List.not_mem_nil, or_false] at hx
        simp only [suppliedStrings, List.mem_cons, List.not_mem_nil, or_false,
          Option.getD_some]
        tauto
  · rw [if_neg h1] at h
    simp only [Except.ok.injEq] at h
    subst h
    simp at hx

theorem mem_chunkingArgs (cfg : Config) (k ip : Option String) (x : String)
    (hx : x ∈ chunkingArgs cfg) :
    x ∈ ["--chunking-strategy", "--chunk-max-characters", "--chunk-overlap"] ∨
    x ∈ suppliedStrings cfg k ip := by
  unfold chunkingArgs at hx
  by_cases h : cfg.chunking.enabled
  · rw [if_pos h] at hx
    simp only [List.mem_cons, List.not_mem_nil, or_false] at hx
    simp only [suppliedStrings, List.mem_cons, List.not_mem_nil, or_false]
    tauto
  · rw [if_neg h] at hx; simp at hx

theorem mem_embeddingArgs (cfg : Config) (k ip : Option String) (x : String)
    (hx : x ∈ embeddingArgs cfg) :
    x ∈ ["--embedding-provider", "--embedding-model-name"] ∨
    x ∈ suppliedStrings cfg k ip := by
  unfold embeddingArgs at hx
  by_cases h : cfg.embedding.enabled
  · rw [if_pos h] at hx
    simp only [List.mem_cons, List.not_mem_nil, or_false] at hx
    simp only [suppliedStrings, List.mem_cons, List.not_mem_nil, or_false]
    tauto
  · rw [if_neg h] at hx; simp at hx

set_option maxHeartbeats 1000000 in
theorem mem_destinationArgs (cfg : Config) (k ip : Option String)
    (dest : List String) (h : destinationArgs cfg = .ok dest) (x : String)
    (hx : x ∈ dest) :
    x ∈ ["chroma", "qdrant", "--host", "--port", "--collection-name",
         "--tenant", "--database", "--batch-size", "--location"] ∨
    x ∈ suppliedStrings cfg k ip := by
  unfold destinationArgs at h
  by_cases h1 : cfg.destination_connectors.enabled
  · rw [if_pos h1] at h
    by_cases h2 : cfg.destination_connectors.type = "chroma"
    · rw [if_pos h2] at h
      simp only [Except.ok.injEq] at h
      subst h
      simp only [List.mem_cons, List.not_mem_nil, or_false] at hx
      simp only [suppliedStrings, List.mem_cons, List.not_mem_nil, or_false]
      tauto
    · rw [if_neg h2] at h
      by_cases h3 : cfg.destination_connectors.type = "qdrant"
      · rw [if_pos h3] at h
        simp only [Except.ok.injEq] at h
        subst h
        simp only [List.mem_cons, List.not_mem_nil, or_false] at hx
        simp only [suppliedStrings, List.mem_cons, List.not_mem_nil, or_false]
        tauto
      · rw [if_neg h3] at h; exact absurd h (by simp)
  · rw [if_neg h1] at h
    simp only [Except.ok.injEq] at h
    subst h
    simp at hx

theorem buildCommand_ok_decomp (cfg : Config) (k : Option String) (st : String)
    (ip : Option String) (cmd : List String)
    (h : buildCommand cfg k st ip = .ok cmd) :
    ∃ src api dest,
      sourceArgs cfg st ip = .ok src ∧ apiArgs cfg k = .ok api ∧
      destinationArgs cfg = .ok dest ∧
      cmd = baseArgs cfg st ++ partitionArgs cfg ++ pdfTableArg cfg ++
        skipTableArg cfg ++ flattenArg cfg ++ src ++ verboseArg cfg ++ api ++
        chunkingArgs cfg ++ embeddingArgs cfg ++ dest := by
  unfold buildCommand at h
  cases h1 : sourceArgs cfg st ip with
  | error e => rw [h1] at h; exact absurd h (by simp)
  | ok src =>
    rw [h1] at h
    cases h2 : apiArgs cfg k with
    | error e => rw [h2] at h; exact absurd h (by simp)
    | ok api =>
      rw [h2] at h
      cases h3 : destinationArgs cfg with
      | error e => rw [h3] at h; exact absurd h (by simp)
      | ok dest =>
        rw [h3] at h
        simp only [Except.ok.injEq] at h
        exact ⟨src, api, dest, rfl, rfl, rfl, h.symm⟩

/-- C1: for every configuration whose value strings do not collide with
the literal flag token, the built command contains
`--pdf-infer-table-structure` if and only if the configuration value
`partitioning.pdf_infer_table_structure` is FALSE — the flag's sense is
inverted relative to its name (lines 41-42 of `sambaparse.py`). -/
theorem C1_pdf_infer_flag_iff (cfg : Config) (k : Option String) (st : String)
    (ip : Option String) (cmd : List String)
    (h : buildCommand cfg k st ip = .ok cmd)
    (hc : "--pdf-infer-table-structure" ∉ suppliedStrings cfg k ip) :
    "--pdf-infer-table-structure" ∈ cmd ↔
      cfg.partitioning.pdf_infer_table_structure = false := by
  obtain ⟨src, api, dest, h1, h2, h3, hcmd⟩ := buildCommand_ok_decomp cfg k st ip cmd h
  subst hcmd
  constructor
  · intro hmem
    simp only [List.mem_append] at hmem
    rcases hmem with ((((((((((hm | hm) | hm) | hm) | hm) | hm) | hm) | hm) | hm) | hm) | hm)
    · rcases mem_baseArgs cfg k ip st _ hm with hl | hst | hs
      · exact absurd hl (by decide)
      · rcases sourceArgs_ok_st cfg st ip src h1 with h4 | h4 | h4 | h4 <;>
          (rw [h4] at hst; exact absurd hst (by decide))
      · exact absurd hs hc
    · rcases mem_partitionArgs cfg k ip _ hm with hl | hs
      · exact absurd hl (by decide)
      · exact absurd hs hc
    · exact (mem_pdfTableArg cfg _ hm).2
    · rcases mem_skipTableArg cfg k ip _ hm with hl | hs
      · exact absurd hl (by decide)
      · exact absurd hs hc
    · exact absurd (mem_flattenArg cfg _ hm) (by decide)
    · rcases mem_sourceArgs cfg k st ip src h1 _ hm with hl | hs
      · exact absurd hl (by decide)
      · exact absurd hs hc
    · exact absurd (mem_verboseArg cfg _ hm) (by decide)
    · rcases mem_apiArgs cfg k ip api h2 _ hm with hl | hs
      · exact absurd hl (by decide)
      · exact absurd hs hc
    · rcases mem_chunkingArgs cfg k ip _ hm with hl | hs
      · exact absurd hl (by decide)
      · exact absurd hs hc
    · rcases mem_embeddingArgs cfg k ip _ hm with hl | hs
      · exact absurd hl (by decide)
      · exact absurd hs hc
    · rcases mem_destinationArgs cfg k ip dest h3 _ hm with hl | hs
      · exact absurd hl (by decide)
      · exact absurd hs hc
  · intro hfalse
    have hpdf : "--pdf-infer-table-structure" ∈ pdfTableArg cfg := by
      unfold pdfTableArg
      rw [if_neg (by simp [hfalse])]
      simp
    simp only [List.mem_append]
    tauto

/-- A concrete configuration used to instantiate the command-builder
theorems, mirroring the shape of the repository's ingestion YAML. -/
def cfgSample : Config :=
  { processor := { output_dir := "./output", num_processes := 2, verbose := true }
    partitioning :=
      { strategy := "auto", ocr_languages := ["eng"], encoding := "utf-8"
        fields_include := ["element_id", "text", "type", "metadata"]
        metadata_exclude := [], metadata_include := []
        pdf_infer_table_structure := false, skip_infer_table_types := ["pdf"]
        flatten_metadata := false, partition_by_api := false
        partition_endpoint := "https://api.unstructured.io" }
    sources :=
      { «local» := { recursive := true }
        confluence := { url := "https://example.atlassian.net", user_email := "user@example.com", api_token := "token" }
        github := { url := "owner/repo", branch := "main" }
        google_drive := { drive_id := "drive", service_account_key := "key.json", recursive := false } }
    chunking :=
      { enabled := true, strategy := "by_title", chunk_max_characters := 1500
        chunk_overlap := 300 }
    embedding := { enabled := false, provider := "langchain-huggingface", model_name := "all-mpnet-base-v2" }
    destination_connectors :=
      { enabled := false, type := "chroma"
        chroma :=
          { host := "localhost", port := 8000, collection_name := "collection"
            tenant := "default_tenant", database := "default_database" }
        qdrant := { location := "http://localhost:6333", collection_name := "collection" }
        batch_size := 100 }
    additional_processing :=
      { enabled := true, extend_metadata := true, replace_table_text := true
        table_text_key := "text_as_html", return_langchain_docs := true } }

/-- The command `buildCommand` produces for `cfgSample` with source type
`local` and input path `./data`. -/
def cmdSample : List String :=
  match buildCommand cfgSample none "local" (some "./data") with
  | .ok c => c
  | .error _ => []

theorem C1_witness :
    "--pdf-infer-table-structure" ∈ cmdSample ↔
      cfgSample.partitioning.pdf_infer_table_structure = false :=
  C1_pdf_infer_flag_iff cfgSample none "local" (some "./data") cmdSample
    (by rfl) (by decide)

/-- C2: for a source-type token outside {local, confluence, github,
google-drive}, or remote partitioning requested with no API key in the
environment, `run_ingest` raises a configuration `ValueError` while
assembling the command, and the only external action that has happened is
the output-directory deletion — the ingest command is never executed. -/
theorem C2_config_error_no_spawn (cfg : Config) (k : Option String) (st : String)
    (ip : Option String)
    (h : st ∉ (["local", "confluence", "github", "google-drive"] : List String) ∨
      (cfg.partitioning.partition_by_api = true ∧ k = none)) :
    isErr (run_ingest cfg k st ip).2 = true ∧
    (run_ingest cfg k st ip).1 = [Event.deleteOutputDir cfg.processor.output_dir] := by
  have herr : ∀ cmd, buildCommand cfg k st ip ≠ .ok cmd := by
    intro cmd hok
    obtain ⟨src, api, dest, h1, h2, h3, -⟩ :=
      buildCommand_ok_decomp cfg k st ip cmd hok
    rcases h with hst | ⟨hapi, hk⟩
    · rcases sourceArgs_ok_st cfg st ip src h1 with h4 | h4 | h4 | h4 <;>
        (apply hst; simp [h4])
    · subst hk
      unfold apiArgs at h2
      rw [if_pos hapi] at h2
      exact absurd h2 (by simp)
  unfold run_ingest
  cases hb : buildCommand cfg k st ip with
  | error e => simp [isErr]
  | ok cmd => exact absurd hb (herr cmd)

theorem C2_witness :
    isErr (run_ingest cfgSample none "s3" (some "./data")).2 = true ∧
    (run_ingest cfgSample none "s3" (some "./data")).1 =
      [Event.deleteOutputDir cfgSample.processor.output_dir] :=
  C2_config_error_no_spawn cfgSample none "s3" (some "./data") (Or.inl (by decide))

/-- C3: on every invocation of `run_ingest` — whatever the source type,
input path or configuration, and in particular also when command
construction raises a configuration error — the very first external
action is the recursive deletion of the configured output directory
(lines 18-22 precede all validation and command building). -/
theorem C3_delete_output_dir_first (cfg : Config) (k : Option String)
    (st : String) (ip : Option String) :
    (run_ingest cfg k st ip).1.head? =
      some (Event.deleteOutputDir cfg.processor.output_dir) := by
  unfold run_ingest
  cases buildCommand cfg k st ip <;> rfl

/-- Extract the token list of a successful command-fragment result. -/
def okOr : Except String (List String) → List String
  | .ok l => l
  | .error _ => []

/-- The tokens `buildCommand` emits before the `--input-path` pair for
source type `local`. -/
def localFront (cfg : Config) : List String :=
  baseArgs cfg "local" ++ partitionArgs cfg ++ pdfTableArg cfg ++
    skipTableArg cfg ++ flattenArg cfg

/-- Line 55-56: the `--recursive` token, present iff
`sources.local.recursive` is true. -/
def localRecursiveArg (cfg : Config) : List String :=
  if cfg.sources.«local».recursive then ["--recursive"] else []

/-- The tokens `buildCommand` emits after the source branch for source
type `local`. -/
def localSuffix (cfg : Config) (k : Option String) : List String :=
  verboseArg cfg ++ okOr (apiArgs cfg k) ++ chunkingArgs cfg ++
    embeddingArgs cfg ++ okOr (destinationArgs cfg)

theorem sourceArgs_local (cfg : Config) (p : String) :
    sourceArgs cfg "local" (some p) =
      .ok (["--input-path", "\"" ++ p ++ "\""] ++ localRecursiveArg cfg) := by
  unfold sourceArgs localRecursiveArg
  simp

/-- C5 (amended): for source type `local`, command construction fails
exactly when the input path is absent (`None`); an empty-string path is
accepted.  On success the command contains `--input-path` immediately
followed by the path wrapped in double quotes, and (when no configured
value token collides with the literal) `--recursive` is present iff
`sources.local.recursive` is true. -/
theorem C5_local_command (cfg : Config) (k : Option String) (p : String)
    (cmd : List String)
    (h : buildCommand cfg k "local" (some p) = .ok cmd)
    (hc : "--recursive" ∉ suppliedStrings cfg k (some p)) :
    buildCommand cfg k "local" none =
      .error "Input path is required for local source type." ∧
    cmd = localFront cfg ++ "--input-path" :: ("\"" ++ p ++ "\"") ::
      (localRecursiveArg cfg ++ localSuffix cfg k) ∧
    ("--recursive" ∈ cmd ↔ cfg.sources.«local».recursive = true) := by
  obtain ⟨src, api, dest, h1, h2, h3, hcmd⟩ :=
    buildCommand_ok_decomp cfg k "local" (some p) cmd h
  have hsrc : src = ["--input-path", "\"" ++ p ++ "\""] ++ localRecursiveArg cfg := by
    rw [sourceArgs_local] at h1
    exact (Except.ok.inj h1).symm
  have hapi : okOr (apiArgs cfg k) = api := by rw [h2]; rfl
  have hdest : okOr (destinationArgs cfg) = dest := by rw [h3]; rfl
  have hfail : buildCommand cfg k "local" none =
      .error "Input path is required for local source type." := by
    have hsn : sourceArgs cfg "local" none =
        .error "Input path is required for local source type." := by
      unfold sourceArgs; simp
    unfold buildCommand
    rw [hsn]
  have hshape : cmd = localFront cfg ++ "--input-path" :: ("\"" ++ p ++ "\"") ::
      (localRecursiveArg cfg ++ localSuffix cfg k) := by
    rw [hcmd, hsrc, localFront, localSuffix, hapi, hdest]
    simp [List.append_assoc]
  refine ⟨hfail, hshape, ?_, ?_⟩
  · intro hmem
    rw [hcmd] at hmem
    simp only [List.mem_append] at hmem
    rcases hmem with ((((((((((hm | hm) | hm) | hm) | hm) | hm) | hm) | hm) | hm) | hm) | hm)
    · rcases mem_baseArgs cfg k (some p) "local" _ hm with hl | hst | hs
      · exact absurd hl (by decide)
      · exact absurd hst (by decide)
      · exact absurd hs hc
    · rcases mem_partitionArgs cfg k (some p) _ hm with hl | hs
      · exact absurd hl (by decide)
      · exact absurd hs hc
    · exact absurd (mem_pdfTableArg cfg _ hm).1 (by decide)
    · rcases mem_skipTableArg cfg k (some p) _ hm with hl | hs
      · exact absurd hl (by decide)
      · exact absurd hs hc
    · exact absurd (mem_flattenArg cfg _ hm) (by decide)
    · rw [hsrc] at hm
      simp only [List.cons_append, List.nil_append, List.mem_cons] at hm
      rcases hm with hm | hm | hm
      · exact absurd hm (by decide)
      · exact absurd (by simp [suppliedStrings, hm] :
          "--recursive" ∈ suppliedStrings cfg k (some p)) hc
      · unfold localRecursiveArg at hm
        by_cases hr : cfg.sources.«local».recursive
        · exact hr
        · rw [if_neg hr] at hm; simp at hm
    · exact absurd (mem_verboseArg cfg _ hm) (by decide)
    · rcases mem_apiArgs cfg k (some p) api h2 _ hm with hl | hs
      · exact absurd hl (by decide)
      · exact absurd hs hc
    · rcases mem_chunkingArgs cfg k (some p) _ hm with hl | hs
      · exact absurd hl (by decide)
      · exact absurd hs hc
    · rcases mem_embeddingArgs cfg k (some p) _ hm with hl | hs
      · exact absurd hl (by decide)
      · exact absurd hs hc
    · rcases mem_destinationArgs cfg k (some p) dest h3 _ hm with hl | hs
      · exact absurd hl (by decide)
      · exact absurd hs hc
  · intro hr
    rw [hshape]
    have : "--recursive" ∈ localRecursiveArg cfg := by
      unfold localRecursiveArg
      rw [if_pos hr]
      simp
    simp only [List.mem_append, List.mem_cons]
    tauto

/-- C5 counterexample: the claim says command construction fails when the
input path is not a non-empty string, but the code only checks
`input_path is None` (line 51): the empty string is accepted and a
command is built. -/
theorem C5_counterexample :
    isErr (buildCommand cfgSample none "local" (some "")) = false := by rfl

theorem C5_witness :
    buildCommand cfgSample none "local" none =
      .error "Input path is required for local source type." ∧
    cmdSample = localFront cfgSample ++
      "--input-path" :: ("\"" ++ "./data" ++ "\"") ::
      (localRecursiveArg cfgSample ++ localSuffix cfgSample none) ∧
    ("--recursive" ∈ cmdSample ↔ cfgSample.sources.«local».recursive = true) :=
  C5_local_command cfgSample none "./data" cmdSample (by rfl) (by decide)

theorem processElement_ok_decomp (em : Bool) (am : Option Obj) (rt : Bool)
    (key : String) (e e' : Obj) (t : JVal) (md : Obj)
    (h : processElement em am rt key e = .ok (e', t, md)) :
    ∃ e1 e2 mv, mergeStep em am e = .ok e1 ∧ tableStep rt key e1 = .ok e2 ∧
      getObjKey e2 "metadata" = .ok mv ∧ getKey e2 "text" = .ok t ∧
      e' = e2 ∧ md = setPage (overlayFields e2 mv) := by
  unfold processElement at h
  cases h1 : mergeStep em am e with
  | error err => rw [h1] at h; exact absurd h (by simp)
  | ok e1 =>
    rw [h1] at h
    simp only [] at h
    cases h2 : tableStep rt key e1 with
    | error err => rw [h2] at h; exact absurd h (by simp)
    | ok e2 =>
      rw [h2] at h
      simp only [] at h
      cases h3 : getObjKey e2 "metadata" with
      | error err => rw [h3] at h; exact absurd h (by simp)
      | ok mv =>
        rw [h3] at h
        simp only [] at h
        cases h4 : getKey e2 "text" with
        | error err => rw [h4] at h; exact absurd h (by simp)
        | ok t0 =>
          rw [h4] at h
          simp only [Except.ok.injEq, Prod.mk.injEq] at h
          obtain ⟨he, ht, hmd⟩ := h
          exact ⟨e1, e2, mv, rfl, h2, h3, ht ▸ h4, he.symm, hmd.symm⟩

theorem processElement_page (em : Bool) (am : Option Obj) (rt : Bool)
    (key : String) (e e' : Obj) (t : JVal) (md : Obj)
    (h : processElement em am rt key e = .ok (e', t, md)) :
    (∃ v, lookupD md "page_number" = some v ∧ lookupD md "page" = some v) ∨
    (lookupD md "page_number" = none ∧ lookupD md "page" = some (.num 1)) := by
  obtain ⟨e1, e2, mv, -, -, -, -, -, hmd⟩ :=
    processElement_ok_decomp em am rt key e e' t md h
  subst hmd
  cases hpn : lookupD (overlayFields e2 mv) "page_number" with
  | none =>
    right
    constructor
    · rw [lookupD_setPage_page_number, hpn]
    · rw [lookupD_setPage_page, hpn]
      rfl
  | some v =>
    left
    exact ⟨v, by rw [lookupD_setPage_page_number, hpn],
      by rw [lookupD_setPage_page, hpn]; rfl⟩

/-- C8: every metadata record produced by `additional_processing` has a
`page` key (lines 169-172): its value is the record's `page_number` value
when that key is present — `setPage` preserves `page_number`, so this is
exactly presence in the merged, overlaid metadata — and `1` otherwise. -/
theorem C8_page_key (em : Bool) (am : Option Obj) (rt : Bool) (key : String)
    (rd : Bool) (files : List (List Obj)) (r : ProcResult)
    (h : additional_processing em am rt key rd files = .ok r) :
    ∀ md ∈ r.metadata_list,
      (∃ v, lookupD md "page_number" = some v ∧ lookupD md "page" = some v) ∨
      (lookupD md "page_number" = none ∧ lookupD md "page" = some (.num 1)) := by
  intro md hmd
  rcases apLoop_mem_metadata em am rt key rd files [] [] [] r h md hmd with
    hin | ⟨f, -, e, -, e', t, hp⟩
  · simp at hin
  · exact processElement_page em am rt key e e' t md hp

/-- Extract a successful `additional_processing` result. -/
def procResultOf : Except PErr ProcResult → ProcResult
  | .ok r => r
  | .error _ => ⟨[], [], [], []⟩

/-- A sample element without a `page_number` key. -/
def e8 : Obj :=
  [("text", .str "hello"), ("type", .str "NarrativeText"),
   ("metadata", .obj [("filename", .str "a.txt")])]

/-- The metadata record `additional_processing` produces for `e8`. -/
def md8 : Obj :=
  [("filename", .str "a.txt"), ("type", .str "NarrativeText"), ("page", .num 1)]

theorem C8_witness :
    (∃ v, lookupD md8 "page_number" = some v ∧ lookupD md8 "page" = some v) ∨
    (lookupD md8 "page_number" = none ∧ lookupD md8 "page" = some (.num 1)) :=
  C8_page_key false none false "summary" false [[e8]]
    (procResultOf (additional_processing false none false "summary" false [[e8]]))
    (by rfl) md8 (List.mem_singleton.mpr rfl)

theorem mergeStep_skip (em : Bool) (am : Option Obj) (e : Obj)
    (hflag : em = false ∨ am = none) : mergeStep em am e = .ok e := by
  unfold mergeStep
  rcases hflag with hf | hf
  · simp [hf]
  · simp [hf, truthyDict]

theorem tableStep_replace (key : String) (e m : Obj) (v : JVal)
    (htype : lookupD e "type" = some (.str "Table"))
    (hmeta : lookupD e "metadata" = some (.obj m))
    (hkey : lookupD m key = some v) :
    tableStep true key e = .ok (setD e "text" v) := by
  unfold tableStep getKey getObjKey
  simp [htype, hmeta, hkey, isTableType]

/-- The spec's sample table element: text `A`, type `Table`, metadata
with `page_number: 3` and `summary: B`. -/
def e7 : Obj :=
  [("text", .str "A"), ("type", .str "Table"),
   ("metadata", .obj [("page_number", .num 3), ("summary", .str "B")])]

/-- C7: processing the spec's sample table element with
replace_table_text and table_text_key `summary` emits text `B` and a
metadata record whose `page` is `3`; in general, whenever table-text
replacement is on, the element's type is `Table` and its metadata mapping
has the configured key, the element's text is replaced by that key's
value (lines 162-163). -/
theorem C7_table_text_replacement :
    Except.map
      (fun r => (r.texts, r.metadata_list.map (fun md => lookupD md "page")))
      (additional_processing false none true "summary" false [[e7]]) =
      .ok ([.str "B"], [some (.num 3)]) ∧
    ∀ (em : Bool) (am : Option Obj) (key : String) (e m : Obj) (v : JVal),
      (em = false ∨ am = none) →
      lookupD e "type" = some (.str "Table") →
      lookupD e "metadata" = some (.obj m) →
      lookupD m key = some v →
      processElement em am true key e =
        .ok (setD e "text" v, v, setPage (overlayFields (setD e "text" v) m)) := by
  constructor
  · rfl
  · intro em am key e m v hflag htype hmeta hkey
    have hm := mergeStep_skip em am e hflag
    have ht := tableStep_replace key e m v htype hmeta hkey
    have h3 : getObjKey (setD e "text" v) "metadata" = .ok m := by
      unfold getObjKey
      rw [lookupD_setD_ne e "text" v "metadata" (by decide), hmeta]
    have h4 : getKey (setD e "text" v) "text" = .ok v := by
      unfold getKey
      rw [lookupD_setD_self]
    unfold processElement
    rw [hm]
    simp only []
    rw [ht]
    simp only []
    rw [h3]
    simp only []
    rw [h4]

theorem C7_witness :
    processElement false none true "summary" e7 =
      .ok (setD e7 "text" (.str "B"), .str "B",
        setPage (overlayFields (setD e7 "text" (.str "B"))
          [("page_number", .num 3), ("summary", .str "B")])) :=
  C7_table_text_replacement.2 false none "summary" e7
    [("page_number", .num 3), ("summary", .str "B")] (.str "B")
    (Or.inl rfl) rfl rfl rfl

/-- C9: when metadata extension is off (or no additional metadata is
supplied) and table-text replacement is off, `additional_processing`
writes every JSON file back with exactly the element sequence it read
(no element is mutated on the flags-off path, lines 158-163). -/
theorem C9_roundtrip (em : Bool) (am : Option Obj) (key : String) (rd : Bool)
    (files : List (List Obj)) (r : ProcResult)
    (hflag : em = false ∨ am = none)
    (h : additional_processing em am false key rd files = .ok r) :
    r.written = files :=
  apLoop_written_id em am key rd hflag files [] [] [] r h

theorem C9_witness :
    (procResultOf (additional_processing false none false "summary" true
      [[e8], [e7]])).written = [[e8], [e7]] :=
  C9_roundtrip false none "summary" true [[e8], [e7]]
    (procResultOf (additional_processing false none false "summary" true
      [[e8], [e7]])) (Or.inl rfl) (by rfl)

theorem tableStep_missing_key (key : String) (e m : Obj)
    (htype : lookupD e "type" = some (.str "Table"))
    (hmeta : lookupD e "metadata" = some (.obj m))
    (hkey : lookupD m key = none) :
    tableStep true key e = .error (.keyError key) := by
  unfold tableStep getKey getObjKey
  simp [htype, hmeta, hkey, isTableType]

/-- C10: with table-text replacement on, an element of type `Table` whose
metadata mapping lacks the configured `table_text_key` makes the lookup
`element['metadata'][table_text_key]` (line 163) raise
`KeyError(table_text_key)` — the element is not skipped and no fallback
to the existing text happens; `additional_processing` propagates the
error. -/
theorem C10_missing_table_key (em : Bool) (am : Option Obj) (key : String)
    (e m : Obj) (rd : Bool)
    (hflag : em = false ∨ am = none)
    (htype : lookupD e "type" = some (.str "Table"))
    (hmeta : lookupD e "metadata" = some (.obj m))
    (hkey : lookupD m key = none) :
    processElement em am true key e = .error (.keyError key) ∧
    additional_processing em am true key rd [[e]] = .error (.keyError key) := by
  have hm := mergeStep_skip em am e hflag
  have ht := tableStep_missing_key key e m htype hmeta hkey
  have hpe : processElement em am true key e = .error (.keyError key) := by
    unfold processElement
    rw [hm]
    simp only []
    rw [ht]
  refine ⟨hpe, ?_⟩
  unfold additional_processing apLoop processElems
  rw [hpe]

theorem C10_witness :
    processElement false none true "summary"
      [("text", .str "A"), ("type", .str "Table"), ("metadata", .obj [])] =
      .error (.keyError "summary") ∧
    additional_processing false none true "summary" false
      [[[("text", .str "A"), ("type", .str "Table"), ("metadata", .obj [])]]] =
      .error (.keyError "summary") :=
  C10_missing_table_key false none "summary"
    [("text", .str "A"), ("type", .str "Table"), ("metadata", .obj [])] []
    false (Or.inl rfl) rfl rfl rfl

theorem tableStep_cases (rt : Bool) (key : String) (e1 e2 : Obj)
    (h : tableStep rt key e1 = .ok e2) :
    e2 = e1 ∨ ∃ v, e2 = setD e1 "text" v := by
  unfold tableStep at h
  cases rt with
  | false =>
    simp at h
    exact Or.inl h.symm
  | true =>
    simp only [if_pos] at h
    cases hk : getKey e1 "type" with
    | error err => rw [hk] at h; exact absurd h (by simp)
    | ok t =>
      rw [hk] at h
      simp only [] at h
      by_cases hit : isTableType t
      · rw [if_pos hit] at h
        cases hgm : getObjKey e1 "metadata" with
        | error err => rw [hgm] at h; exact absurd h (by simp)
        | ok m =>
          rw [hgm] at h
          simp only [] at h
          cases hlk : lookupD m key with
          | none => rw [hlk] at h; exact absurd h (by simp)
          | some v =>
            rw [hlk] at h
            simp only [Except.ok.injEq] at h
            exact Or.inr ⟨v, h.symm⟩
      · rw [if_neg hit] at h
        simp only [Except.ok.injEq] at h
        exact Or.inl h.symm

theorem processElement_source (rt : Bool) (key : String) (e e' : Obj)
    (t : JVal) (md : Obj)
    (hns : lookupD e "source" = none)
    (h : processElement true (some [("source", .str "x")]) rt key e =
      .ok (e', t, md)) :
    lookupD md "source" = some (.str "x") := by
  obtain ⟨e1, e2, mv, h1, h2, h3, -, -, hmd⟩ :=
    processElement_ok_decomp true (some [("source", .str "x")]) rt key e e' t md h
  unfold mergeStep at h1
  rw [if_pos (by simp [truthyDict])] at h1
  cases hgm : getObjKey e "metadata" with
  | error err => rw [hgm] at h1; exact absurd h1 (by simp)
  | ok m =>
    rw [hgm] at h1
    simp only [Except.ok.injEq, Option.getD_some] at h1
    have he1 : e1 = setD e "metadata" (.obj (setD m "source" (.str "x"))) := by
      rw [← h1]
      rfl
    have hsrc1 : lookupD e1 "source" = none := by
      rw [he1, lookupD_setD_ne e "metadata" _ "source" (by decide), hns]
    have hmeta1 : lookupD e1 "metadata" =
        some (.obj (setD m "source" (.str "x"))) := by
      rw [he1, lookupD_setD_self]
    have hsrc2 : lookupD e2 "source" = none := by
      rcases tableStep_cases rt key e1 e2 h2 with he2 | ⟨v', he2⟩
      · rw [he2]; exact hsrc1
      · rw [he2, lookupD_setD_ne e1 "text" v' "source" (by decide)]; exact hsrc1
    have hmeta2 : lookupD e2 "metadata" =
        some (.obj (setD m "source" (.str "x"))) := by
      rcases tableStep_cases rt key e1 e2 h2 with he2 | ⟨v', he2⟩
      · rw [he2]; exact hmeta1
      · rw [he2, lookupD_setD_ne e1 "text" v' "metadata" (by decide)]; exact hmeta1
    have hmv : mv = setD m "source" (.str "x") := by
      unfold getObjKey at h3
      rw [hmeta2] at h3
      simp only [Except.ok.injEq] at h3
      exact h3.symm
    subst hmd
    rw [lookupD_setPage_other _ _ (by decide)]
    rw [lookupD_overlayFields e2 mv "source"
      ((lookupD_eq_none_iff e2 "source").mp hsrc2)]
    rw [hmv, lookupD_setD_self]

/-- An element carrying a TOP-LEVEL `source` field besides its metadata. -/
def e6 : Obj :=
  [("text", .str "A"), ("type", .str "NarrativeText"),
   ("metadata", .obj []), ("source", .str "orig")]

/-- C6 counterexample: with extend_metadata on and
additional_metadata `{source: "x"}`, an element with a TOP-LEVEL `source`
field does NOT yield `source: "x"` in its metadata record — the top-level
field is overlaid after the merge (lines 166-168) and wins. -/
theorem C6_counterexample :
    Except.map (fun r => r.metadata_list.map (fun md => lookupD md "source"))
      (additional_processing true (some [("source", .str "x")]) false "" false
        [[e6]]) = .ok [some (.str "orig")] ∧
    JVal.str "orig" ≠ JVal.str "x" := by
  constructor
  · rfl
  · simp

/-- C6 (amended): with extend_metadata on and additional_metadata
`{source: "x"}`, every metadata record of an element WITHOUT a top-level
`source` field contains `source: "x"`, overriding any pre-existing
`source` key in the element's metadata mapping; a top-level `source`
field on the element is overlaid after the merge and takes precedence. -/
theorem C6_source_override (rt : Bool) (key : String) (rd : Bool)
    (files : List (List Obj)) (r : ProcResult)
    (h : additional_processing true (some [("source", .str "x")]) rt key rd
      files = .ok r)
    (hts : ∀ f ∈ files, ∀ e ∈ f, lookupD e "source" = none) :
    ∀ md ∈ r.metadata_list, lookupD md "source" = some (.str "x") := by
  intro md hmd
  rcases apLoop_mem_metadata true (some [("source", .str "x")]) rt key rd files
    [] [] [] r h md hmd with hin | ⟨f, hf, e, he, e', t, hp⟩
  · simp at hin
  · exact processElement_source rt key e e' t md (hts f hf e he) hp

/-- The metadata record `additional_processing` produces for `e8` when
merging `{source: "x"}`. -/
def md6 : Obj :=
  [("filename", .str "a.txt"), ("source", .str "x"),
   ("type", .str "NarrativeText"), ("page", .num 1)]

theorem C6_witness : lookupD md6 "source" = some (.str "x") :=
  C6_source_override false "" false [[e8]]
    (procResultOf (additional_processing true (some [("source", .str "x")])
      false "" false [[e8]]))
    (by rfl)
    (by
      intro f hf e he
      simp only [List.mem_singleton] at hf
      subst hf
      simp only [List.mem_singleton] at he
      subst he
      rfl)
    md6 (List.mem_singleton.mpr rfl)

theorem map_dropLast_eq {α β : Type} (g : α → β) :
    ∀ (l : List α), (l.dropLast).map g = (l.map g).dropLast := by
  intro l
  induction l with
  | nil => rfl
  | cons a l ih =>
    cases l with
    | nil => rfl
    | cons b m =>
      show g a :: ((b :: m).dropLast).map g = (g a :: (b :: m).map g).dropLast
      rw [ih]
      rfl

/-- C4 (amended): with document emission on, the langchain-document count
equals the sum of the running prefix lengths (`docCountModel`): after each
file the document list is extended with documents rebuilt from the ENTIRE
accumulated texts/metadata lists (lines 177-178).  The count strictly
exceeds the total element count (`texts` holds one entry per element)
whenever some file other than the last contains at least one element. -/
theorem C4_doc_accumulation (em : Bool) (am : Option Obj) (rt : Bool)
    (key : String) (files : List (List Obj)) (r : ProcResult)
    (h : additional_processing em am rt key true files = .ok r) :
    r.texts.length = (files.map List.length).sum ∧
    r.langchain_docs.length = docCountModel 0 (files.map List.length) ∧
    ((∃ f ∈ files.dropLast, f ≠ []) →
      r.texts.length < r.langchain_docs.length) := by
  obtain ⟨c1, c2, c3⟩ := apLoop_count em am rt key files [] [] [] r h rfl
  simp only [List.length_nil, Nat.zero_add] at c1 c3
  refine ⟨c1, c3, ?_⟩
  rintro ⟨f, hf, hne⟩
  have hx : ∃ x ∈ (files.map List.length).dropLast, 0 < x := by
    refine ⟨f.length, ?_, ?_⟩
    · rw [← map_dropLast_eq List.length files]
      exact List.mem_map_of_mem List.length hf
    · cases f with
      | nil => exact absurd rfl hne
      | cons a l => simp
  have h4 := docCountModel_gt_sum (files.map List.length) 0 hx
  omega

/-- C4 counterexample: two files where the first is empty — document
emission is requested and two JSON files are processed, yet the document
count (1) EQUALS the total element count (1) instead of exceeding it,
because the only nonempty prefix is the full list. -/
theorem C4_counterexample :
    Except.map (fun r => (r.langchain_docs.length, r.texts.length))
      (additional_processing false none false "" true [[], [e8]]) =
      .ok (1, 1) ∧ ¬ ((1 : Nat) > 1) := by
  constructor
  · rfl
  · decide

theorem C4_witness :
    (procResultOf (additional_processing false none false "" true
      [[e8], [e8]])).texts.length <
    (procResultOf (additional_processing false none false "" true
      [[e8], [e8]])).langchain_docs.length :=
  (C4_doc_accumulation false none false "" [[e8], [e8]]
    (procResultOf (additional_processing false none false "" true [[e8], [e8]]))
    (by rfl)).2.2 ⟨[e8], by simp, by simp⟩
